import Mathlib

/-!
Verification of the banking-demo UI test suite's page-object layer.

Strings are modelled as lists of characters (`Str`); Python's substring
test `needle in hay` is modelled by `containsSub`; element state that the
page objects read from the live UI (message visibility, table rows, the
search-filtered view, the dialog that fires on a click) is passed in
explicitly as state records, since the remote application is an external
collaborator.
-/

namespace BankingTests

abbrev Str := List Char

/-- Python's substring test `needle in hay`: true iff `needle` occurs
contiguously inside `hay`. -/
def containsSub (needle : Str) : Str → Bool
  | [] => needle.isEmpty
  | c :: cs => needle.isPrefixOf (c :: cs) || containsSub needle cs

/-- `containsSub` decides the infix relation. -/
theorem containsSub_iff (needle hay : Str) :
    containsSub needle hay = true ↔ needle <:+: hay := by
  induction hay with
  | nil =>
    simp [containsSub, List.isEmpty_iff]
  | cons c cs ih =>
    simp [containsSub, List.infix_cons_iff, ih]

/-- Python `str.lower`, restricted to the per-character lowering relevant
to the ASCII texts compared by the page objects. -/
def strLower (s : Str) : Str := s.map Char.toLower

/-- Case-insensitive containment, the reading of the spec's
"contains X case-insensitively". -/
def ContainsCI (needle hay : Str) : Prop := strLower needle <:+: strLower hay

/-- Python `name.split(" ", 1)` when a space is present: `some (before,
after)` splits at the first space; `none` means no space occurs. -/
def splitFirstSpace : Str → Option (Str × Str)
  | [] => none
  | c :: cs =>
      if c = ' ' then some ([], cs)
      else (splitFirstSpace cs).map (fun p => (c :: p.1, p.2))

/-- Python `str.strip`: drop whitespace from both ends. -/
def pyStrip (s : Str) : Str :=
  ((s.dropWhile Char.isWhitespace).reverse.dropWhile Char.isWhitespace).reverse

/-! ## CustomerPage (src/banking_tests/pages/customer_page.py) -/

/-- The literal `"successful"` checked by `perform_withdrawal`. -/
def successfulLit : Str := "successful".data

/-- State of the `span.error` message element after the withdrawal form is
submitted: `some t` iff the element is visible with text `t`, `none` iff
it is not visible. -/
structure WithdrawOutcome where
  message : Option Str

/-- `CustomerPage.perform_withdrawal` (customer_page.py:71-95), return
value only: after submitting, if the message element is visible it returns
whether the lowercased message text contains `"successful"`; otherwise it
returns `False`. -/
def perform_withdrawal (amount : Int) (st : WithdrawOutcome) : Bool :=
  match st.message with
  | some t => containsSub successfulLit (strLower t)
  | none => false

/-- `re.search(r'(\d+)', s)`: the first maximal run of consecutive digits
in `s`, or `none` when `s` has no digit. -/
def firstDigitRun : Str → Option Str
  | [] => none
  | c :: cs =>
      if c.isDigit then some (c :: cs.takeWhile Char.isDigit)
      else firstDigitRun cs

/-- `CustomerPage.get_account_number` (customer_page.py:34-42) applied to
the text read from the account-number label: the first run of digits when
one exists, otherwise the raw text. -/
def get_account_number (account_text : Str) : Str :=
  match firstDigitRun account_text with
  | some d => d
  | none => account_text

/-- State of the transactions table: the cell texts of each visible
`tbody tr` row, in display order. -/
structure TransTable where
  rows : List (List Str)

/-- `CustomerPage.get_transactions_count` (customer_page.py:161-164):
the number of visible rows. -/
def get_transactions_count (t : TransTable) : Nat := t.rows.length

/-- `CustomerPage.get_transaction_amounts` (customer_page.py:166-176):
the stripped text of the second cell (`td:nth-child(2)`) of every row that
has one, in display order. -/
def get_transaction_amounts (t : TransTable) : List Str :=
  t.rows.filterMap (fun r => (r.get? 1).map pyStrip)

/-! ## ManagerPage (src/banking_tests/pages/manager_page.py) -/

/-- One visible row of the customers table: its `text_content` and whether
a `button:text(\x27Delete\x27)` control is present inside it. -/
structure CustomerRow where
  text : Str
  hasDelete : Bool
deriving DecidableEq

/-- State of the manager's customers screen. Filtering by the search box
is performed by the remote application, an external collaborator, so the
filtered view is part of the state: `searchRows q` (resp. `searchText q`)
is the row list (resp. the whole-table `text_content`) shown after filling
the search box with `q`; `rows` and `tableText` are the unfiltered view. -/
structure ManagerTable where
  tableText : Str
  rows : List CustomerRow
  searchRows : Str → List CustomerRow
  searchText : Str → Str

/-- `ManagerPage.is_customer_listed` (manager_page.py:139-176). For a name
containing a space: first the full name is looked for in the unfiltered
table text; failing that, the search box is filled with the part before
the first space and each filtered row is scanned for the part after it.
For a single token the search box is filled with the name and the name is
looked for in the filtered table text. -/
def is_customer_listed (tbl : ManagerTable) (customer_name : Str) : Bool :=
  match splitFirstSpace customer_name with
  | some (first_name, last_name) =>
      if containsSub customer_name tbl.tableText then true
      else (tbl.searchRows first_name).any
        (fun r => containsSub last_name r.text)
  | none => containsSub customer_name (tbl.searchText customer_name)

/-- The row scan of `ManagerPage.delete_customer`: the index of the first
row whose text contains `tok` and which has a Delete button, mirroring the
`for i in range(rows.count())` loop that clicks and returns on the first
such row. -/
def findClickIdx (tok : Str) : List CustomerRow → Option Nat
  | [] => none
  | r :: rs =>
      if containsSub tok r.text && r.hasDelete then some 0
      else (findClickIdx tok rs).map (· + 1)

/-- `ManagerPage.delete_customer` (manager_page.py:92-137). Returns the
boolean result together with the index, in the searched view, of the row
whose Delete control was clicked (`none` when no click was issued). For a
space-containing name the search box gets the part before the first space
and rows are matched on the part after it; otherwise both use the name. -/
def delete_customer (tbl : ManagerTable) (customer_name : Str) :
    Bool × Option Nat :=
  match splitFirstSpace customer_name with
  | some (first_name, last_name) =>
      match findClickIdx last_name (tbl.searchRows first_name) with
      | some i => (true, some i)
      | none => (false, none)
  | none =>
      match findClickIdx customer_name (tbl.searchRows customer_name) with
      | some i => (true, some i)
      | none => (false, none)

/-- Errors surfaced by the interaction primitives: `optionNotFound` is the
failure of `select_option` when the requested visible label is absent from
the dropdown (base_page.py:25-27; spec section 7). -/
inductive UIError where
  | optionNotFound
deriving DecidableEq

/-- `BasePage.select_option` (base_page.py:25-27): selecting by visible
label fails with `optionNotFound` when no option carries that label. -/
def selectOption (labels : List Str) (label : Str) : Except UIError Unit :=
  if labels.contains label then Except.ok () else Except.error .optionNotFound

/-- The fixed dialog pattern of `ManagerPage.open_account`
(manager_page.py:74). -/
def accountPatternLit : Str :=
  "Account created successfully with account Number :".data

/-- The sentinel stored by the dialog handler before pattern matching
(manager_page.py:71). -/
def unknownLit : Str := "unknown".data

/-- `re.search(accountPatternLit + r"(\d+)", msg)` at one position: if the
pattern is a prefix of `s` and at least one digit follows, the captured
maximal digit run. -/
def extractAt (s : Str) : Option Str :=
  if accountPatternLit.isPrefixOf s then
    let d := (s.drop accountPatternLit.length).takeWhile Char.isDigit
    if d.isEmpty then none else some d
  else none

/-- `re.search` over all start positions, leftmost match first
(manager_page.py:74-79). -/
def searchAccount : Str → Option Str
  | [] => none
  | c :: cs =>
      match extractAt (c :: cs) with
      | some d => some d
      | none => searchAccount cs

/-- Environment of one `open_account` call: the labels of the customer and
currency dropdowns, and the dialog message that fires on the Process
click, when one fires at all. -/
structure OpenAccountEnv where
  customerLabels : List Str
  currencyLabels : List Str
  dialog : Option Str

/-- `ManagerPage.open_account` (manager_page.py:54-90): select customer
and currency (each can fail with `optionNotFound`), initialise the stored
account number to `None`, register the one-shot dialog handler, click
Process. If a dialog fires the handler stores `"unknown"` and overwrites
it with the captured digits when the pattern matches; the stored value is
returned. -/
def open_account (env : OpenAccountEnv) (customer_name currency : Str) :
    Except UIError (Option Str) := do
  selectOption env.customerLabels customer_name
  selectOption env.currencyLabels currency
  match env.dialog with
  | none => return none
  | some msg => return some ((searchAccount msg).getD unknownLit)

/-! ## LoginPage (src/banking_tests/pages/login_page.py) -/

/-- The interaction events a page-object method issues, in order. -/
inductive UIEvent where
  | waitSelectorVisible (selector : Str) (timeoutMs : Nat)
  | click (selector : Str)
  | sleep (ms : Nat)
deriving DecidableEq

/-- Selector of the manager-login entry (login_page.py:8). -/
def MANAGER_LOGIN_BTN : Str := "button[ng-click=\x27manager()\x27]".data

/-- `LoginPage.manager_login` (login_page.py:18-24) as its ordered event
trace: wait (bounded, 5000ms) for the manager-login button to be visible,
click it, then sleep a fixed 1000ms. -/
def manager_login_trace : List UIEvent :=
  [UIEvent.waitSelectorVisible MANAGER_LOGIN_BTN 5000,
   UIEvent.click MANAGER_LOGIN_BTN,
   UIEvent.sleep 1000]

/-- Recogniser for bounded visibility waits in a trace. -/
def isVisibilityWait : UIEvent → Bool
  | UIEvent.waitSelectorVisible _ _ => true
  | _ => false

/-! ## CLI entry point (src/banking_tests/run_tests.py) -/

/-- Observable outcome of one run of the suite: how many scenarios failed,
the exit code of the pytest subprocess, and whether the post-run report
processing inside the `try` block raised an exception. -/
structure RunResult where
  failed : Nat
  returncode : Nat
  reportRaises : Bool
deriving DecidableEq

/-- `main` of run_tests.py (run_tests.py:8-71): any exception inside the
`try` block is caught and turns into return value 1; otherwise the result
is 1 when the pytest subprocess exited non-zero and 0 when it exited 0.
The returned value becomes the process exit code via `sys.exit(main())`. -/
def run_tests_main (r : RunResult) : Nat :=
  if r.reportRaises then 1
  else if r.returncode ≠ 0 then 1
  else 0

/-- The contract of the external pytest harness assumed by the spec: the
subprocess exits 0 exactly when no scenario failed. -/
def PytestContract (r : RunResult) : Prop := r.returncode = 0 ↔ r.failed = 0

/-! ## Helper lemmas -/

/-- The element just after a dropped-while segment falsifies the predicate. -/
theorem head?_dropWhile_false {α : Type} (p : α → Bool) (l : List α) :
    ∀ c, (l.dropWhile p).head? = some c → p c = false := by
  intro c h
  have hm := List.head?_dropWhile_not p l
  rw [h] at hm
  exact hm

/-- The literal checked by `perform_withdrawal` is already lowercase. -/
theorem lower_successful : strLower successfulLit = successfulLit := by decide

/-- `firstDigitRun` returns `none` exactly on digit-free text. -/
theorem firstDigitRun_eq_none (s : Str) :
    firstDigitRun s = none ↔ ∀ c ∈ s, c.isDigit = false := by
  induction s with
  | nil => simp [firstDigitRun]
  | cons c cs ih =>
    rw [firstDigitRun]
    by_cases hc : c.isDigit
    · simp [hc]
    · have hc' : c.isDigit = false := by simpa using hc
      simp [hc', ih]

/-- A successful `firstDigitRun` is a nonempty all-digit segment preceded
by digit-free text and followed by text not starting with a digit. -/
theorem firstDigitRun_some {s d : Str} (h : firstDigitRun s = some d) :
    ∃ p q, s = p ++ d ++ q ∧ d ≠ [] ∧ (∀ c ∈ d, c.isDigit = true) ∧
      (∀ c ∈ p, c.isDigit = false) ∧
      (∀ c, q.head? = some c → c.isDigit = false) := by
  induction s with
  | nil => simp [firstDigitRun] at h
  | cons c cs ih =>
    rw [firstDigitRun] at h
    by_cases hc : c.isDigit
    · rw [if_pos hc] at h
      injection h with h
      refine ⟨[], cs.dropWhile Char.isDigit, ?_, ?_, ?_, ?_, ?_⟩
      · rw [← h]
        simp [List.takeWhile_append_dropWhile]
      · rw [← h]; simp
      · intro x hx
        rw [← h] at hx
        rcases List.mem_cons.mp hx with hx | hx
        · rw [hx]; exact hc
        · exact List.mem_takeWhile_imp hx
      · intro x hx; simp at hx
      · exact head?_dropWhile_false Char.isDigit cs
    · rw [if_neg hc] at h
      have hc' : c.isDigit = false := by simpa using hc
      obtain ⟨p, q, hs, hne, hd, hp, hq⟩ := ih h
      refine ⟨c :: p, q, ?_, hne, hd, ?_, hq⟩
      · simp [hs]
      · intro x hx
        rcases List.mem_cons.mp hx with hx | hx
        · rw [hx]; exact hc'
        · exact hp x hx

/-! ## Claim theorems: CustomerPage -/

/-- C1: `perform_withdrawal` returns true iff, after submitting, the
message element is visible and its text contains `"successful"`
case-insensitively; in every other case (including when no message element
is visible) it returns false. -/
theorem perform_withdrawal_c1 (amount : Int) (st : WithdrawOutcome) :
    perform_withdrawal amount st = true ↔
      ∃ t, st.message = some t ∧ ContainsCI successfulLit t := by
  cases st with
  | mk msg =>
    cases msg with
    | none => simp [perform_withdrawal]
    | some t =>
      simp only [perform_withdrawal, Option.some.injEq]
      rw [containsSub_iff]
      constructor
      · intro h
        refine ⟨t, rfl, ?_⟩
        unfold ContainsCI
        rw [lower_successful]
        exact h
      · rintro ⟨t', ht', h⟩
        unfold ContainsCI at h
        rw [lower_successful] at h
        rw [ht']
        exact h

/-- C6: `get_account_number` applied to the displayed label text returns
the first maximal run of digits in that text; when the text has no digit
at all it returns the raw text unchanged. -/
theorem get_account_number_c6 (s : Str) :
    ((∀ c ∈ s, c.isDigit = false) → get_account_number s = s) ∧
    ((∃ c ∈ s, c.isDigit = true) →
      get_account_number s ≠ [] ∧
      (∀ c ∈ get_account_number s, c.isDigit = true) ∧
      ∃ p q, s = p ++ get_account_number s ++ q ∧
        (∀ c ∈ p, c.isDigit = false) ∧
        (∀ c, q.head? = some c → c.isDigit = false)) := by
  constructor
  · intro h
    have hn : firstDigitRun s = none := (firstDigitRun_eq_none s).mpr h
    simp [get_account_number, hn]
  · rintro ⟨c, hc, hdig⟩
    cases hrun : firstDigitRun s with
    | none =>
      have := (firstDigitRun_eq_none s).mp hrun c hc
      rw [hdig] at this
      cases this
    | some d =>
      obtain ⟨p, q, hs, hne, hd, hp, hq⟩ := firstDigitRun_some hrun
      simp only [get_account_number, hrun]
      exact ⟨hne, hd, p, q, hs, hp, hq⟩

/-- Witness for C6: on the label text `"Account Number : 1004 ,"` the
extraction yields exactly the digit run `"1004"`. -/
theorem get_account_number_c6_witness :
    (∃ c ∈ "Account Number : 1004 ,".data, c.isDigit = true) ∧
    get_account_number "Account Number : 1004 ,".data ≠ [] ∧
    (∀ c ∈ get_account_number "Account Number : 1004 ,".data,
      c.isDigit = true) ∧
    ∃ p q, "Account Number : 1004 ,".data =
        p ++ get_account_number "Account Number : 1004 ,".data ++ q ∧
      (∀ c ∈ p, c.isDigit = false) ∧
      (∀ c, q.head? = some c → c.isDigit = false) :=
  ⟨by decide, (get_account_number_c6 "Account Number : 1004 ,".data).2 (by decide)⟩

/-- On rows that all have a second cell, the amount extraction degenerates
to a per-row map. -/
theorem filterMap_amounts : ∀ rows : List (List Str),
    (∀ row ∈ rows, 2 ≤ row.length) →
    rows.filterMap (fun r => (r.get? 1).map pyStrip) =
      rows.map (fun r => pyStrip ((r.get? 1).getD []))
  | [], _ => rfl
  | r :: rs, h => by
    have h1 : 1 < r.length := h r (List.mem_cons_self r rs)
    have ih := filterMap_amounts rs (fun row hrow => h row (List.mem_cons_of_mem r hrow))
    cases r with
    | nil => simp at h1
    | cons a r' =>
      cases r' with
      | nil => simp at h1
      | cons b r'' =>
        simp [List.filterMap_cons, List.get?_eq_getElem?] at ih ⊢
        exact ih

/-- A transactions table exhibiting the C8 gap: one visible row with a
single cell, so the row count is 1 but no amount entry is produced. -/
def c8Bad : TransTable := ⟨[["190".data]]⟩

/-- C8 shown false as stated: on `c8Bad` the length of
`get_transaction_amounts` differs from `get_transactions_count`, because
the amounts locator only matches rows that have a second cell. -/
theorem transactions_c8_counterexample :
    (get_transaction_amounts c8Bad).length ≠ get_transactions_count c8Bad := by
  decide

/-- C8 (amended): whenever every visible row has at least two cells,
`get_transaction_amounts` has exactly one entry per visible row, in
display order (the stripped second cell), and its length equals
`get_transactions_count`. -/
theorem transactions_c8 (t : TransTable)
    (h : ∀ row ∈ t.rows, 2 ≤ row.length) :
    get_transaction_amounts t =
      t.rows.map (fun r => pyStrip ((r.get? 1).getD [])) ∧
    (get_transaction_amounts t).length = get_transactions_count t := by
  have h1 := filterMap_amounts t.rows h
  refine ⟨h1, ?_⟩
  unfold get_transaction_amounts get_transactions_count
  unfold get_transaction_amounts at h1
  rw [h1, List.length_map]

/-- A well-formed two-row transactions table. -/
def c8Good : TransTable :=
  ⟨[["2025".data, " 500 ".data, "Credit".data], ["2025".data, "300".data]]⟩

/-- Witness for the amended C8 on a concrete two-row table. -/
theorem transactions_c8_witness :
    (∀ row ∈ c8Good.rows, 2 ≤ row.length) ∧
    (get_transaction_amounts c8Good).length = get_transactions_count c8Good :=
  ⟨by decide, (transactions_c8 c8Good (by decide)).2⟩

/-! ## Claim theorems: LoginPage -/

/-- C5 shown false as stated: in the trace of `manager_login` no bounded
visibility wait of any kind occurs after the click on the manager-login
entry; the only post-click step is a fixed 1000ms sleep. -/
theorem manager_login_c5_counterexample :
    ¬ ∃ i j s t, i < j ∧
      manager_login_trace.get? i = some (UIEvent.click MANAGER_LOGIN_BTN) ∧
      manager_login_trace.get? j = some (UIEvent.waitSelectorVisible s t) := by
  rintro ⟨i, j, s, t, hij, hi, hj⟩
  rcases j with _ | _ | _ | j
  · exact absurd hij (Nat.not_lt_zero i)
  · simp [manager_login_trace, List.get?] at hj
  · simp [manager_login_trace, List.get?] at hj
  · simp [manager_login_trace, List.get?] at hj

/-- C5 (amended): `manager_login` first waits (bounded, 5000ms) for the
manager-login entry itself to become visible, then clicks it, and then
only sleeps a fixed 1000ms before returning; it never waits on a
manager-home marker element after the click. -/
theorem manager_login_c5 :
    manager_login_trace.get? 0 =
      some (UIEvent.waitSelectorVisible MANAGER_LOGIN_BTN 5000) ∧
    manager_login_trace.get? 1 = some (UIEvent.click MANAGER_LOGIN_BTN) ∧
    manager_login_trace.drop 2 = [UIEvent.sleep 1000] ∧
    (manager_login_trace.drop 2).all (fun e => !(isVisibilityWait e)) = true := by
  decide

/-! ## Claim theorems: CLI entry point -/

/-- A run in which no scenario failed and pytest exited 0, but reading the
JSON report raised (e.g. a malformed report file). -/
def c7Run : RunResult := ⟨0, 0, true⟩

/-- C7 shown false as stated: on `c7Run` every scenario passed and the
pytest contract holds, yet the entry point returns 1, because the
catch-all `except` clause also maps report-processing errors to 1. -/
theorem run_tests_c7_counterexample :
    PytestContract c7Run ∧ c7Run.failed = 0 ∧ run_tests_main c7Run = 1 :=
  ⟨Iff.rfl, rfl, rfl⟩

/-- C7 (amended): in every run whose report processing completes without
raising, and granting the harness contract that pytest exits 0 exactly
when no scenario failed, the process exit code is non-zero iff at least
one scenario failed. -/
theorem run_tests_c7 (r : RunResult) (hp : PytestContract r)
    (hr : r.reportRaises = false) :
    run_tests_main r ≠ 0 ↔ 0 < r.failed := by
  unfold run_tests_main
  unfold PytestContract at hp
  rw [hr]
  by_cases h0 : r.returncode = 0
  · have hf : r.failed = 0 := hp.mp h0
    simp [h0, hf]
  · have hf : r.failed ≠ 0 := fun h => h0 (hp.mpr h)
    simp [h0]
    omega

/-- A run with two failed scenarios and a clean report. -/
def c7Fail : RunResult := ⟨2, 1, false⟩

/-- Witness for the amended C7 on a concrete failing run. -/
theorem run_tests_c7_witness :
    PytestContract c7Fail ∧ (run_tests_main c7Fail ≠ 0 ↔ 0 < c7Fail.failed) :=
  ⟨by simp [PytestContract, c7Fail],
   run_tests_c7 c7Fail (by simp [PytestContract, c7Fail]) rfl⟩

/-! ## Claim theorems: ManagerPage dialog handling (open_account) -/

/-- The dialog message matches the fixed textual pattern: the pattern text
followed immediately by at least one digit occurs somewhere in it. -/
def PatMatches (msg : Str) : Prop :=
  ∃ p d q, msg = p ++ accountPatternLit ++ d ++ q ∧ d ≠ [] ∧
    ∀ c ∈ d, c.isDigit = true

/-- A position-wise match decomposes the text as pattern, digits, rest. -/
theorem extractAt_sound {s d : Str} (h : extractAt s = some d) :
    ∃ q, s = accountPatternLit ++ d ++ q ∧ d ≠ [] ∧
      (∀ c ∈ d, c.isDigit = true) ∧
      (∀ c, q.head? = some c → c.isDigit = false) := by
  unfold extractAt at h
  by_cases hp : accountPatternLit.isPrefixOf s
  · rw [if_pos hp] at h
    have hpre : accountPatternLit <+: s := by
      rw [← List.isPrefixOf_iff_prefix]
      exact hp
    obtain ⟨t, ht⟩ := hpre
    have hdrop : s.drop accountPatternLit.length = t := by
      rw [← ht]
      exact List.drop_left accountPatternLit t
    rw [hdrop] at h
    by_cases he : (t.takeWhile Char.isDigit).isEmpty
    · rw [if_pos he] at h
      cases h
    · rw [if_neg he] at h
      injection h with h
      refine ⟨t.dropWhile Char.isDigit, ?_, ?_, ?_, ?_⟩
      · rw [← ht, ← h]
        rw [List.append_assoc]
        rw [List.takeWhile_append_dropWhile]
      · rw [← h]
        intro hnil
        rw [hnil] at he
        exact he rfl
      · intro c hc
        rw [← h] at hc
        exact List.mem_takeWhile_imp hc
      · exact head?_dropWhile_false Char.isDigit t
  · rw [if_neg hp] at h
    cases h

/-- If the text starts with the pattern followed by a nonempty digit run,
the position-wise match succeeds. -/
theorem extractAt_front (d q : Str) (hd : d ≠ [])
    (hdig : ∀ c ∈ d, c.isDigit = true) :
    (extractAt (accountPatternLit ++ (d ++ q))).isSome = true := by
  have hpre : accountPatternLit.isPrefixOf (accountPatternLit ++ (d ++ q)) = true := by
    rw [List.isPrefixOf_iff_prefix]
    exact List.prefix_append accountPatternLit (d ++ q)
  unfold extractAt
  rw [if_pos hpre]
  rw [List.drop_left accountPatternLit (d ++ q)]
  cases d with
  | nil => exact absurd rfl hd
  | cons c d' =>
    have hc : c.isDigit = true := hdig c (List.mem_cons_self c d')
    rw [List.cons_append, List.takeWhile_cons_of_pos hc]
    simp

/-- Whenever the position-wise match succeeds somewhere, the scan of
`re.search` succeeds. -/
theorem searchAccount_of_extractAt {s : Str}
    (h : (extractAt s).isSome = true) : (searchAccount s).isSome = true := by
  cases s with
  | nil =>
    have : extractAt ([] : Str) = none := by decide
    rw [this] at h
    cases h
  | cons c cs =>
    rw [searchAccount]
    cases he : extractAt (c :: cs) with
    | some d => simp
    | none =>
      rw [he] at h
      cases h

/-- Soundness of the scan: a captured run is a nonempty all-digit segment
immediately following the pattern text, not extendable to the right. -/
theorem searchAccount_sound {s d : Str} (h : searchAccount s = some d) :
    ∃ p q, s = p ++ accountPatternLit ++ d ++ q ∧ d ≠ [] ∧
      (∀ c ∈ d, c.isDigit = true) ∧
      (∀ c, q.head? = some c → c.isDigit = false) := by
  induction s with
  | nil => simp [searchAccount] at h
  | cons c cs ih =>
    rw [searchAccount] at h
    cases he : extractAt (c :: cs) with
    | some d' =>
      rw [he] at h
      injection h with h
      rw [h] at he
      obtain ⟨q, hs, hne, hdig, hq⟩ := extractAt_sound he
      exact ⟨[], q, by simpa using hs, hne, hdig, hq⟩
    | none =>
      rw [he] at h
      obtain ⟨p, q, hs, hne, hdig, hq⟩ := ih h
      refine ⟨c :: p, q, ?_, hne, hdig, hq⟩
      simp [hs]

/-- Completeness of the scan: any occurrence of the pattern followed by a
nonempty digit run makes `re.search` succeed. -/
theorem searchAccount_isSome {msg : Str} (h : PatMatches msg) :
    (searchAccount msg).isSome = true := by
  obtain ⟨p, d, q, hs, hd, hdig⟩ := h
  subst hs
  induction p with
  | nil =>
    apply searchAccount_of_extractAt
    have := extractAt_front d q hd hdig
    simpa using this
  | cons c p' ih =>
    rw [List.cons_append, List.cons_append, List.cons_append, searchAccount]
    cases he : extractAt (c :: (p' ++ accountPatternLit ++ d ++ q)) with
    | some d' => simp
    | none => simpa using ih

/-- When no occurrence exists the scan returns `none`. -/
theorem searchAccount_none {msg : Str} (h : ¬ PatMatches msg) :
    searchAccount msg = none := by
  cases he : searchAccount msg with
  | none => rfl
  | some d =>
    obtain ⟨p, q, hs, hne, hdig, _⟩ := searchAccount_sound he
    exact absurd ⟨p, d, q, hs, hne, hdig⟩ h

/-- An environment whose customer dropdown does not carry the requested
label. -/
def c2Env : OpenAccountEnv := ⟨[], [], none⟩

/-- C2 shown false as stated: `open_account` is not raise-free for every
customer name and currency — when the requested customer label is absent
from the dropdown, the `select_option` primitive fails and the failure
propagates out of `open_account`. -/
theorem open_account_c2_counterexample :
    open_account c2Env "Bob Smith".data "Dollar".data =
      Except.error UIError.optionNotFound := by
  rfl

/-- C2 (amended): when the requested customer and currency labels exist in
their dropdowns and the creation dialog fires, `open_account` does not
raise: it returns the captured digits when the dialog message contains the
fixed pattern followed by digits, and the sentinel `"unknown"` when the
message does not match the pattern. -/
theorem open_account_c2 (env : OpenAccountEnv)
    (customer_name currency msg : Str)
    (hn : env.customerLabels.contains customer_name = true)
    (hc : env.currencyLabels.contains currency = true)
    (hd : env.dialog = some msg) :
    (¬ PatMatches msg →
      open_account env customer_name currency = Except.ok (some unknownLit)) ∧
    (PatMatches msg →
      ∃ d p q, open_account env customer_name currency = Except.ok (some d) ∧
        msg = p ++ accountPatternLit ++ d ++ q ∧ d ≠ [] ∧
        (∀ c ∈ d, c.isDigit = true) ∧
        (∀ c, q.head? = some c → c.isDigit = false)) := by
  have hrun : open_account env customer_name currency =
      Except.ok (some ((searchAccount msg).getD unknownLit)) := by
    unfold open_account selectOption
    rw [hn, hc, hd]
    rfl
  constructor
  · intro h
    rw [hrun, searchAccount_none h]
    rfl
  · intro h
    have hsome := searchAccount_isSome h
    cases he : searchAccount msg with
    | none => rw [he] at hsome; cases hsome
    | some d =>
      obtain ⟨p, q, hs, hne, hdig, hq⟩ := searchAccount_sound he
      refine ⟨d, p, q, ?_, hs, hne, hdig, hq⟩
      rw [hrun, he]
      rfl

/-- The environment of a successful account creation: the labels exist and
the confirmation dialog fires with the standard message. -/
def c2OkEnv : OpenAccountEnv :=
  ⟨["Harry Potter".data], ["Dollar".data],
   some "Account created successfully with account Number :1005".data⟩

/-- Witness for the amended C2: on the standard dialog message the
captured account number is a nonempty digit run following the pattern. -/
theorem open_account_c2_witness :
    PatMatches "Account created successfully with account Number :1005".data ∧
    ∃ d p q,
      open_account c2OkEnv "Harry Potter".data "Dollar".data =
        Except.ok (some d) ∧
      "Account created successfully with account Number :1005".data =
        p ++ accountPatternLit ++ d ++ q ∧ d ≠ [] ∧
      (∀ c ∈ d, c.isDigit = true) ∧
      (∀ c, q.head? = some c → c.isDigit = false) :=
  ⟨⟨[], "1005".data, [], by decide, by decide, by decide⟩,
   (open_account_c2 c2OkEnv "Harry Potter".data "Dollar".data
      "Account created successfully with account Number :1005".data
      (by decide) (by decide) rfl).2
    ⟨[], "1005".data, [], by decide, by decide, by decide⟩⟩

/-- C9: when the customer and currency selections succeed but no dialog at
all fires during `open_account`, the registered one-shot handler never
runs and the operation returns the initial `None` — not an account number
and not the sentinel `"unknown"`. -/
theorem open_account_c9 (env : OpenAccountEnv)
    (customer_name currency : Str)
    (hn : env.customerLabels.contains customer_name = true)
    (hc : env.currencyLabels.contains currency = true)
    (hd : env.dialog = none) :
    open_account env customer_name currency = Except.ok none := by
  unfold open_account selectOption
  rw [hn, hc, hd]
  rfl

/-- The environment of a Process click on which no dialog fires. -/
def c9Env : OpenAccountEnv := ⟨["Harry Potter".data], ["Pound".data], none⟩

/-- Witness for C9 on a concrete dialog-free environment. -/
theorem open_account_c9_witness :
    open_account c9Env "Harry Potter".data "Pound".data = Except.ok none :=
  open_account_c9 c9Env "Harry Potter".data "Pound".data
    (by decide) (by decide) rfl

/-! ## Claim theorems: ManagerPage customers table -/

/-- A row whose text contains the tokens `"Bob"` and `"Smith"` without
containing the full name `"Bob Smith"`. -/
def c3Row : CustomerRow := ⟨"BobbySmithson12".data, true⟩

/-- A customers screen on which every view consists of `c3Row` only. -/
def c3Tbl : ManagerTable :=
  ⟨"FirstNameLastNamePostCode".data, [c3Row],
   fun _ => [c3Row], fun _ => "BobbySmithson12".data⟩

/-- The looked-up full name. -/
def c3Name : Str := "Bob Smith".data

/-- C3 shown false as stated: `is_customer_listed` answers true although
no visible row of any view — unfiltered or search-filtered — contains the
name, because for space-containing names the filtered retry only matches
the part after the first space. -/
theorem is_customer_listed_c3_counterexample :
    is_customer_listed c3Tbl c3Name = true ∧
    containsSub c3Name c3Tbl.tableText = false ∧
    (c3Tbl.rows ++ c3Tbl.searchRows "Bob".data).all
      (fun r => !(containsSub c3Name r.text)) = true ∧
    containsSub c3Name (c3Tbl.searchText c3Name) = false := by
  decide

/-- C3 (amended): for a name containing a space, `is_customer_listed`
answers true iff the full name occurs in the unfiltered table text or
some row of the view filtered by the part before the first space contains
the part after it; for a single token it answers true iff the token
occurs in the table text of the view filtered by the token. -/
theorem is_customer_listed_c3 :
    (∀ (tbl : ManagerTable) (nm first_name last_name : Str),
      splitFirstSpace nm = some (first_name, last_name) →
      (is_customer_listed tbl nm = true ↔
        nm <:+: tbl.tableText ∨
          ∃ r ∈ tbl.searchRows first_name, last_name <:+: r.text)) ∧
    (∀ (tbl : ManagerTable) (nm : Str),
      splitFirstSpace nm = none →
      (is_customer_listed tbl nm = true ↔ nm <:+: tbl.searchText nm)) := by
  constructor
  · intro tbl nm first_name last_name hsplit
    unfold is_customer_listed
    rw [hsplit]
    by_cases hb : containsSub nm tbl.tableText = true
    · have hin := (containsSub_iff nm tbl.tableText).mp hb
      simp [hb, hin]
    · have hb' : containsSub nm tbl.tableText = false := by simpa using hb
      have hnot : ¬ nm <:+: tbl.tableText := fun hin => by
        rw [(containsSub_iff _ _).mpr hin] at hb'
        cases hb'
      simp [hb', hnot, List.any_eq_true, containsSub_iff]
  · intro tbl nm hsplit
    unfold is_customer_listed
    rw [hsplit]
    exact containsSub_iff nm (tbl.searchText nm)

/-- Witness for the amended C3: on `c3Tbl` the filtered-view disjunct is
inhabited, so the lookup answers true. -/
theorem is_customer_listed_c3_witness :
    is_customer_listed c3Tbl c3Name = true :=
  (is_customer_listed_c3.1 c3Tbl c3Name "Bob".data "Smith".data (by decide)).mpr
    (Or.inr ⟨c3Row, by decide,
      (containsSub_iff "Smith".data c3Row.text).mp (by decide)⟩)

/-- `findClickIdx` finds nothing exactly when no row passes the combined
text-and-button test. -/
theorem findClickIdx_none_iff (tok : Str) (rows : List CustomerRow) :
    findClickIdx tok rows = none ↔
      ∀ r ∈ rows, (containsSub tok r.text && r.hasDelete) = false := by
  induction rows with
  | nil => simp [findClickIdx]
  | cons r rs ih =>
    rw [findClickIdx]
    by_cases hc : (containsSub tok r.text && r.hasDelete) = true
    · rw [if_pos hc]
      constructor
      · intro h; simp at h
      · intro hall
        have hr := hall r (List.mem_cons_self r rs)
        rw [hc] at hr
        simp at hr
    · have hc' : (containsSub tok r.text && r.hasDelete) = false := by simpa using hc
      rw [if_neg hc, Option.map_eq_none']
      constructor
      · intro h r' hr'
        rcases List.mem_cons.mp hr' with h' | h'
        · rw [h']; exact hc'
        · exact (ih.mp h) r' h'
      · intro hall
        exact ih.mpr (fun r' hr' => hall r' (List.mem_cons_of_mem r hr'))

/-- A found index points at a passing row and everything before it fails
the test. -/
theorem findClickIdx_some {tok : Str} {rows : List CustomerRow} {i : Nat}
    (h : findClickIdx tok rows = some i) :
    ∃ r, rows.get? i = some r ∧
      (containsSub tok r.text && r.hasDelete) = true ∧
      ∀ j, j < i → ∀ r', rows.get? j = some r' →
        (containsSub tok r'.text && r'.hasDelete) = false := by
  induction rows generalizing i with
  | nil => simp [findClickIdx] at h
  | cons r rs ih =>
    rw [findClickIdx] at h
    by_cases hc : (containsSub tok r.text && r.hasDelete) = true
    · rw [if_pos hc] at h
      injection h with h
      subst h
      refine ⟨r, rfl, hc, ?_⟩
      intro j hj r' _
      exact absurd hj (Nat.not_lt_zero j)
    · rw [if_neg hc] at h
      have hc' : (containsSub tok r.text && r.hasDelete) = false := by simpa using hc
      obtain ⟨i', hi', heq⟩ := Option.map_eq_some'.mp h
      obtain ⟨r', hr', hcond, hfirst⟩ := ih hi'
      subst heq
      refine ⟨r', by simpa using hr', hcond, ?_⟩
      intro j hj r'' hj'
      cases j with
      | zero =>
        have : r = r'' := by
          have := hj'
          simp at this
          exact this
        rw [← this]
        exact hc'
      | succ j' =>
        exact hfirst j' (Nat.lt_of_succ_lt_succ hj) r'' (by simpa using hj')

/-- Conversely, the first passing row is the one found. -/
theorem findClickIdx_eq_some {tok : Str} {rows : List CustomerRow}
    {i : Nat} {r : CustomerRow}
    (hr : rows.get? i = some r)
    (hc : (containsSub tok r.text && r.hasDelete) = true)
    (hfirst : ∀ j, j < i → ∀ r', rows.get? j = some r' →
      (containsSub tok r'.text && r'.hasDelete) = false) :
    findClickIdx tok rows = some i := by
  induction rows generalizing i with
  | nil => simp at hr
  | cons r0 rs ih =>
    cases i with
    | zero =>
      have h0 : r0 = r := by
        have := hr
        simp at this
        exact this
      rw [findClickIdx, if_pos (by rw [h0]; exact hc)]
    | succ i' =>
      have h0 : (containsSub tok r0.text && r0.hasDelete) = false :=
        hfirst 0 (Nat.succ_pos i') r0 rfl
      rw [findClickIdx, if_neg (by simp [h0])]
      have hrec : findClickIdx tok rs = some i' :=
        ih (by simpa using hr)
          (fun j hj r' hj' =>
            hfirst (j + 1) (Nat.succ_lt_succ hj) r' (by simpa using hj'))
      rw [hrec]
      rfl

/-- The view `delete_customer` scans: the table filtered by the part of
the name before the first space, or by the whole name. -/
def scanRows (tbl : ManagerTable) (nm : Str) : List CustomerRow :=
  match splitFirstSpace nm with
  | some (first_name, _) => tbl.searchRows first_name
  | none => tbl.searchRows nm

/-- The token `delete_customer` matches rows against: the part after the
first space, or the whole name. -/
def matchToken (nm : Str) : Str :=
  match splitFirstSpace nm with
  | some (_, last_name) => last_name
  | none => nm

/-- The two branches of `delete_customer` collapse to one scan over
`scanRows` with token `matchToken`. -/
theorem delete_customer_eq (tbl : ManagerTable) (nm : Str) :
    delete_customer tbl nm =
      match findClickIdx (matchToken nm) (scanRows tbl nm) with
      | some i => (true, some i)
      | none => (false, none) := by
  unfold delete_customer scanRows matchToken
  rcases h : splitFirstSpace nm with _ | ⟨f, l⟩ <;> simp [h]

/-- C4: `delete_customer` returns true iff some visible row of the
searched view passes the match (its text contains the searched token and
it carries a Delete control), in which case the issued click targets the
first such row; it returns false — and no click is issued — when no row
matches. Nothing stronger than the click is asserted. -/
theorem delete_customer_c4 (tbl : ManagerTable) (nm : Str) :
    ((delete_customer tbl nm).1 = true ↔
      ∃ r ∈ scanRows tbl nm, matchToken nm <:+: r.text ∧ r.hasDelete = true) ∧
    ((delete_customer tbl nm).1 = false → (delete_customer tbl nm).2 = none) ∧
    ((delete_customer tbl nm).1 = true →
      ∃ i r, (delete_customer tbl nm).2 = some i ∧
        (scanRows tbl nm).get? i = some r ∧
        matchToken nm <:+: r.text ∧ r.hasDelete = true) := by
  have hcv : ∀ r : CustomerRow,
      (containsSub (matchToken nm) r.text && r.hasDelete) = true ↔
        (matchToken nm <:+: r.text ∧ r.hasDelete = true) := by
    intro r
    rw [Bool.and_eq_true, containsSub_iff]
  rw [delete_customer_eq]
  cases hf : findClickIdx (matchToken nm) (scanRows tbl nm) with
  | none =>
    have hall := (findClickIdx_none_iff (matchToken nm) (scanRows tbl nm)).mp hf
    refine ⟨?_, fun _ => rfl, ?_⟩
    · simp only [show ((false, (none : Option Nat)) : Bool × Option Nat).1 = false
        from rfl]
      constructor
      · intro h; cases h
      · rintro ⟨r, hmem, hcond⟩
        have := hall r hmem
        rw [(hcv r).mpr hcond] at this
        cases this
    · intro h; cases h
  | some i =>
    obtain ⟨r, hget, hcond, _⟩ := findClickIdx_some hf
    refine ⟨?_, ?_, ?_⟩
    · constructor
      · intro _
        exact ⟨r, List.get?_mem hget, (hcv r).mp hcond⟩
      · intro _; rfl
    · intro h; cases h
    · intro _
      exact ⟨i, r, rfl, hget, (hcv r).mp hcond⟩

/-- A single-row customers view for the C4 witness. -/
def c4Row : CustomerRow := ⟨"DaveJones7".data, true⟩

/-- A customers screen whose every view consists of `c4Row` only. -/
def c4Tbl : ManagerTable :=
  ⟨"DaveJones7".data, [c4Row], fun _ => [c4Row], fun _ => "DaveJones7".data⟩

/-- The deleted single-token name. -/
def c4Name : Str := "Dave".data

/-- Witness for C4: on `c4Tbl` the matching row exists, the call answers
true and the click goes to that row. -/
theorem delete_customer_c4_witness :
    (delete_customer c4Tbl c4Name).1 = true ∧
    ∃ i r, (delete_customer c4Tbl c4Name).2 = some i ∧
      (scanRows c4Tbl c4Name).get? i = some r ∧
      matchToken c4Name <:+: r.text ∧ r.hasDelete = true := by
  have h1 : (delete_customer c4Tbl c4Name).1 = true :=
    (delete_customer_c4 c4Tbl c4Name).1.mpr
      ⟨c4Row, by decide, (containsSub_iff _ _).mp (by decide), rfl⟩
  exact ⟨h1, (delete_customer_c4 c4Tbl c4Name).2.2 h1⟩

/-- C10: for a name with a space, `delete_customer` searches by the part
before the first space and clicks the Delete control of the first visible
row of that filtered view whose text contains the part after the first
space (and which carries a Delete control) — with no requirement that the
row also contain the part before the space. -/
theorem delete_customer_c10 (tbl : ManagerTable)
    (nm first_name last_name : Str) (i : Nat) (r : CustomerRow)
    (hsplit : splitFirstSpace nm = some (first_name, last_name))
    (hget : (tbl.searchRows first_name).get? i = some r)
    (hmatch : last_name <:+: r.text) (hdel : r.hasDelete = true)
    (hfirst : ∀ j, j < i → ∀ r',
      (tbl.searchRows first_name).get? j = some r' →
      ¬(last_name <:+: r'.text ∧ r'.hasDelete = true)) :
    delete_customer tbl nm = (true, some i) := by
  have hidx : findClickIdx last_name (tbl.searchRows first_name) = some i := by
    apply findClickIdx_eq_some hget
    · rw [Bool.and_eq_true, containsSub_iff]
      exact ⟨hmatch, hdel⟩
    · intro j hj r' hj'
      cases hb : (containsSub last_name r'.text && r'.hasDelete) with
      | false => rfl
      | true =>
        obtain ⟨ha, hb'⟩ := Bool.and_eq_true .. |>.mp hb
        exact absurd ⟨(containsSub_iff _ _).mp ha, hb'⟩ (hfirst j hj r' hj')
  have hmt : matchToken nm = last_name := by
    unfold matchToken
    rw [hsplit]
  have hsr : scanRows tbl nm = tbl.searchRows first_name := by
    unfold scanRows
    rw [hsplit]
  rw [delete_customer_eq, hmt, hsr, hidx]

/-- A row for a different customer who shares only the last-name token. -/
def c10Row : CustomerRow := ⟨"AliceSmith99".data, true⟩

/-- A customers screen whose filtered view shows `c10Row`. -/
def c10Tbl : ManagerTable :=
  ⟨"AliceSmith99".data, [c10Row], fun _ => [c10Row],
   fun _ => "AliceSmith99".data⟩

/-- The requested full name. -/
def c10Name : Str := "Bob Smith".data

/-- Witness for C10: deleting `"Bob Smith"` clicks the Delete control of a
row that contains neither `"Bob"` nor `"Bob Smith"` — a different customer
sharing the last-name token. -/
theorem delete_customer_c10_witness :
    delete_customer c10Tbl c10Name = (true, some 0) ∧
    containsSub "Bob".data c10Row.text = false ∧
    containsSub c10Name c10Row.text = false :=
  ⟨delete_customer_c10 c10Tbl c10Name "Bob".data "Smith".data 0 c10Row
     (by decide) rfl ((containsSub_iff _ _).mp (by decide)) rfl
     (fun j hj r' _ => absurd hj (Nat.not_lt_zero j)),
   by decide, by decide⟩

end BankingTests
